import Mathlib

/-!
Verification development for the CourseScoutAgent URL-validation subsystem.

The Python sources are shallowly embedded as Lean definitions:
- src/validators/base.py: ValidationStatus, ValidationResult, extract_plain_text, fetch_url
- src/validators/udemy.py: validate_udemy_url (fetch step + pure classification)
- src/storage/db.py: get_url_check, upsert_url_check over a list-of-rows model
  of the url_checks table (url is the primary key)
- src/main.py: validate_udemy_urls (dedup, TTL cache policy, counters)

Network and HTML-parser effects are modelled as explicit oracles: a fetch
attempt oracle (Nat-indexed, none = transport failure on that attempt) and a
parse outcome (none = parser exception). Python str.lower is modelled by
mapping Char.toLower; Python substring membership by List.isInfixOf on the
character lists.
-/

/-- Embeds ValidationStatus from src/validators/base.py. -/
inductive ValidationStatus where
  | VALID
  | INVALID
  | UNKNOWN
deriving DecidableEq, Repr

/-- Embeds the .value projection of the Python enum: its string payload. -/
def ValidationStatus.value : ValidationStatus → String
  | .VALID => "VALID"
  | .INVALID => "INVALID"
  | .UNKNOWN => "UNKNOWN"

/-- Embeds the ValidationResult dataclass from src/validators/base.py.
It has exactly the five fields of the source dataclass; in particular there
is no checked_at field. -/
structure ValidationResult where
  url : String
  status : ValidationStatus
  reason : String
  final_url : Option String
  http_status : Option Int
deriving DecidableEq, Repr

/-- Embeds Python str.lower for the ASCII text handled by the validator. -/
def strLower (s : String) : String :=
  String.mk (s.data.map Char.toLower)

/-- Computes whether needle occurs as a contiguous run inside hay. -/
def listHasRun (needle : List Char) : List Char → Bool
  | [] => needle.isEmpty
  | c :: t => needle.isPrefixOf (c :: t) || listHasRun needle t

/-- Embeds the Python substring test needle in hay. -/
def containsSub (hay needle : String) : Bool :=
  listHasRun needle.data hay.data

/-- Embeds invalid_keywords from src/validators/udemy.py lines 32-37. -/
def invalid_keywords : List String :=
  ["course is no longer available",
   "we couldn\x27t find the page",
   "we could not find the page",
   "not found"]

/-- Embeds unknown_keywords from src/validators/udemy.py lines 68-71. -/
def unknown_keywords : List String :=
  ["please log in",
   "access denied"]

/-- Embeds the pure classification part of validate_udemy_url
(src/validators/udemy.py lines 20-90): the ordered rules applied to the
fetched (http_status, final_url, text_snippet). -/
def classifyOutcome (url : String) (http_status : Option Int)
    (final_url : Option String) (text_snippet : String) : ValidationResult :=
  let text_lower := strLower text_snippet
  if http_status = some 404 then
    { url := url, status := ValidationStatus.INVALID,
      reason := "HTTP 404 - Page not found",
      final_url := final_url, http_status := http_status }
  else
    match invalid_keywords.find? (fun keyword => containsSub text_lower keyword) with
    | some keyword =>
      { url := url, status := ValidationStatus.INVALID,
        reason := "Page indicates unavailability: \x27" ++ keyword ++ "\x27",
        final_url := final_url, http_status := http_status }
    | none =>
      if http_status = some 429 then
        { url := url, status := ValidationStatus.UNKNOWN,
          reason := "HTTP 429 - Rate limited",
          final_url := final_url, http_status := http_status }
      else if http_status = none then
        { url := url, status := ValidationStatus.UNKNOWN,
          reason := "Network error - could not fetch URL",
          final_url := final_url, http_status := http_status }
      else
        match unknown_keywords.find? (fun keyword => containsSub text_lower keyword) with
        | some keyword =>
          { url := url, status := ValidationStatus.UNKNOWN,
            reason := "Requires authentication: \x27" ++ keyword ++ "\x27",
            final_url := final_url, http_status := http_status }
        | none =>
          { url := url, status := ValidationStatus.VALID,
            reason := "URL accessible and appears valid",
            final_url := final_url, http_status := http_status }

/-- Embeds validate_udemy_url from src/validators/udemy.py: fetch the URL
(here an oracle from URL to the fetch_url result triple) then classify. -/
def validate_udemy_url (fetch : String → Option Int × Option String × String)
    (url : String) : ValidationResult :=
  let t := fetch url
  classifyOutcome url t.1 t.2.1 t.2.2

/-- Embeds max_retries from src/validators/base.py line 91. -/
def max_retries : Nat := 2

/-- Embeds the retry loop of fetch_url (src/validators/base.py lines 93-118):
attempts is the network oracle giving, per attempt index, either none
(a requests.exceptions.RequestException) or the successful
(status_code, final_url, extracted snippet) triple. -/
def fetchTry (attempts : Nat → Option (Int × String × String)) :
    Nat → Nat → Option Int × Option String × String
  | 0, i =>
    match attempts i with
    | some r => (some r.1, some r.2.1, r.2.2)
    | none => (none, none, "")
  | remaining + 1, i =>
    match attempts i with
    | some r => (some r.1, some r.2.1, r.2.2)
    | none => fetchTry attempts remaining (i + 1)

/-- Embeds fetch_url from src/validators/base.py: try attempt 0 and up to
max_retries further attempts; on total failure return (None, None, ""). -/
def fetch_url (attempts : Nat → Option (Int × String × String)) :
    Option Int × Option String × String :=
  fetchTry attempts max_retries 0

/-- C1: for every fetch outcome with httpStatus equal to 404 the classifier
returns INVALID with reason HTTP 404 - Page not found, regardless of the
snippet content: rule 1 is checked before every other rule. -/
theorem classify_404_invalid (url : String) (final_url : Option String)
    (snippet : String) :
    classifyOutcome url (some 404) final_url snippet =
      { url := url, status := ValidationStatus.INVALID,
        reason := "HTTP 404 - Page not found",
        final_url := final_url, http_status := some 404 } := by
  simp [classifyOutcome]

/-- C2: whenever the lowercased snippet contains an INVALID-triggering
keyword the classifier returns INVALID, for every httpStatus (in particular
200 and 429) and irrespective of any UNKNOWN-triggering keyword also present:
the keyword rules are evaluated before the 429/network/authentication rules. -/
theorem classify_invalid_keyword_wins (url : String) (http_status : Option Int)
    (final_url : Option String) (snippet : String)
    (h : ∃ k ∈ invalid_keywords, containsSub (strLower snippet) k = true) :
    (classifyOutcome url http_status final_url snippet).status =
      ValidationStatus.INVALID := by
  unfold classifyOutcome
  by_cases h404 : http_status = some 404
  · simp [h404]
  · have hsome :
        (invalid_keywords.find?
          (fun keyword => containsSub (strLower snippet) keyword)).isSome := by
      rw [List.find?_isSome]
      obtain ⟨k, hk, hck⟩ := h
      exact ⟨k, hk, hck⟩
    obtain ⟨k, hfind⟩ := Option.isSome_iff_exists.mp hsome
    simp [h404, hfind]

/-- Witness for C2: a snippet holding both the INVALID keyword not found and
the UNKNOWN keyword please log in, fetched with httpStatus 200, is INVALID. -/
theorem classify_invalid_keyword_wins_witness :
    (classifyOutcome "https://www.udemy.com/course/x/" (some 200) none
      "Not Found - please log in").status = ValidationStatus.INVALID :=
  classify_invalid_keyword_wins "https://www.udemy.com/course/x/" (some 200) none
    "Not Found - please log in" ⟨"not found", by decide, by decide⟩

/-- C5: when httpStatus is present, is neither 404 nor 429, and the lowercased
snippet contains none of the six trigger keywords, the classifier returns the
optimistic default VALID with reason URL accessible and appears valid. -/
theorem classify_default_valid (url : String) (final_url : Option String)
    (snippet : String) (n : Int) (h404 : n ≠ 404) (h429 : n ≠ 429)
    (hkw : ∀ k ∈ invalid_keywords ++ unknown_keywords,
      containsSub (strLower snippet) k = false) :
    classifyOutcome url (some n) final_url snippet =
      { url := url, status := ValidationStatus.VALID,
        reason := "URL accessible and appears valid",
        final_url := final_url, http_status := some n } := by
  have hinv : invalid_keywords.find?
      (fun keyword => containsSub (strLower snippet) keyword) = none := by
    rw [List.find?_eq_none]
    intro k hk
    simp [hkw k (List.mem_append_left _ hk)]
  have hunk : unknown_keywords.find?
      (fun keyword => containsSub (strLower snippet) keyword) = none := by
    rw [List.find?_eq_none]
    intro k hk
    simp [hkw k (List.mem_append_right _ hk)]
  simp [classifyOutcome, hinv, hunk, h404, h429]

/-- Witness for C5: an ordinary 200 response with a benign snippet is VALID. -/
theorem classify_default_valid_witness :
    classifyOutcome "https://www.udemy.com/course/y/" (some 200) none
      "Learn Python today" =
      { url := "https://www.udemy.com/course/y/", status := ValidationStatus.VALID,
        reason := "URL accessible and appears valid",
        final_url := none, http_status := some 200 } :=
  classify_default_valid "https://www.udemy.com/course/y/" none
    "Learn Python today" 200 (by decide) (by decide) (by decide)

/-- C4: when all three attempts (initial plus 2 retries) fail at the network
level, fetch_url returns the terminal outcome (none, none, empty snippet)
rather than an error, and the classifier maps that outcome to UNKNOWN with
reason Network error - could not fetch URL. -/
theorem fetch_failure_unknown (attempts : Nat → Option (Int × String × String))
    (url : String)
    (h0 : attempts 0 = none) (h1 : attempts 1 = none) (h2 : attempts 2 = none) :
    fetch_url attempts = (none, none, "") ∧
    (classifyOutcome url (fetch_url attempts).1 (fetch_url attempts).2.1
      (fetch_url attempts).2.2).status = ValidationStatus.UNKNOWN ∧
    (classifyOutcome url (fetch_url attempts).1 (fetch_url attempts).2.1
      (fetch_url attempts).2.2).reason = "Network error - could not fetch URL" := by
  have hf : fetch_url attempts = (none, none, "") := by
    simp [fetch_url, max_retries, fetchTry, h0, h1, h2]
  refine ⟨hf, ?_, ?_⟩ <;> rw [hf] <;> rfl

/-- Witness for C4: the always-failing network oracle yields the terminal
outcome and the UNKNOWN verdict. -/
theorem fetch_failure_unknown_witness :
    fetch_url (fun _ => none) = (none, none, "") ∧
    (classifyOutcome "https://www.udemy.com/course/z/" (fetch_url (fun _ => none)).1
      (fetch_url (fun _ => none)).2.1
      (fetch_url (fun _ => none)).2.2).status = ValidationStatus.UNKNOWN ∧
    (classifyOutcome "https://www.udemy.com/course/z/" (fetch_url (fun _ => none)).1
      (fetch_url (fun _ => none)).2.1
      (fetch_url (fun _ => none)).2.2).reason = "Network error - could not fetch URL" :=
  fetch_failure_unknown (fun _ => none) "https://www.udemy.com/course/z/" rfl rfl rfl

/-- Embeds a row of the url_checks table created by init_db in
src/storage/db.py lines 35-44; url is the primary key. -/
structure CacheRow where
  url : String
  status : String
  reason : String
  http_status : Option Int
  final_url : Option String
  checked_at : Int
deriving DecidableEq, Repr

/-- States the url_checks primary-key invariant: pairwise distinct url keys. -/
def keysUnique (db : List CacheRow) : Prop :=
  (db.map CacheRow.url).Nodup

/-- Embeds get_url_check from src/storage/db.py lines 171-205: the SELECT of
the row whose primary key equals url. -/
def get_url_check (db : List CacheRow) (url : String) : Option CacheRow :=
  db.find? (fun r => r.url == url)

/-- Embeds the INSERT ... ON CONFLICT(url) DO UPDATE statement of
upsert_url_check (src/storage/db.py lines 153-162): overwrite the existing
row for that url, or insert a new row. -/
def upsertRow (db : List CacheRow) (row : CacheRow) : List CacheRow :=
  if (db.find? (fun r => r.url == row.url)).isSome then
    db.map (fun r => if r.url == row.url then row else r)
  else
    db ++ [row]

/-- Embeds the field extraction and conversion of upsert_url_check
(src/storage/db.py lines 123-147). checkedAtAttr models
getattr(result, checked_at, None): a ValidationResult has no checked_at
field, so callers passing a ValidationResult supply none and the row gets
the write-time clock value now. -/
def rowOf (now : Int) (result : ValidationResult) (checkedAtAttr : Option Int) :
    CacheRow :=
  { url := result.url, status := result.status.value, reason := result.reason,
    http_status := result.http_status, final_url := result.final_url,
    checked_at := checkedAtAttr.getD now }

/-- Embeds upsert_url_check from src/storage/db.py lines 116-168. -/
def upsert_url_check (now : Int) (result : ValidationResult)
    (checkedAtAttr : Option Int) (db : List CacheRow) : List CacheRow :=
  upsertRow db (rowOf now result checkedAtAttr)

/-- Characterizes upsertRow on a table whose keys are pairwise distinct: the
key invariant is preserved, the rows keyed by the written url reduce to
exactly the written row, lookup returns the written row, and no key beyond
the written one is introduced. -/
theorem upsertRow_spec (row : CacheRow) :
    ∀ db : List CacheRow, keysUnique db →
      keysUnique (upsertRow db row) ∧
      (upsertRow db row).filter (fun r => r.url == row.url) = [row] ∧
      (upsertRow db row).find? (fun r => r.url == row.url) = some row ∧
      ∀ u, u ∈ (upsertRow db row).map CacheRow.url →
        u ∈ db.map CacheRow.url ∨ u = row.url := by
  intro db
  induction db with
  | nil =>
    intro _
    refine ⟨?_, ?_, ?_, ?_⟩ <;> simp [upsertRow, keysUnique]
  | cons r rest ih =>
    intro hkeys
    have hkr : keysUnique rest := by
      have := hkeys
      simp only [keysUnique, List.map_cons, List.nodup_cons] at this
      exact this.2
    have hnotin : r.url ∉ rest.map CacheRow.url := by
      have := hkeys
      simp only [keysUnique, List.map_cons, List.nodup_cons] at this
      exact this.1
    by_cases hr : r.url = row.url
    · have hnomatch : ∀ x ∈ rest, (x.url == row.url) = false := by
        intro x hx
        have hne : x.url ≠ row.url := by
          intro he
          exact hnotin (by
            rw [hr, ← he]
            exact List.mem_map_of_mem CacheRow.url hx)
        simp [hne]
      have hmap : rest.map (fun x => if x.url == row.url then row else x) = rest := by
        conv_rhs => rw [← List.map_id rest]
        apply List.map_congr_left
        intro x hx
        simp [hnomatch x hx]
      have hup : upsertRow (r :: rest) row = row :: rest := by
        unfold upsertRow
        have hfind : (r :: rest).find? (fun x => x.url == row.url) = some r := by
          apply List.find?_cons_of_pos
          simp [hr]
        rw [hfind]
        simp only [Option.isSome_some, ite_true, List.map_cons, hmap]
        simp [hr]
      rw [hup]
      refine ⟨?_, ?_, ?_, ?_⟩
      · simp only [keysUnique, List.map_cons, List.nodup_cons]
        exact ⟨by rw [← hr]; exact fun h => hnotin (by simpa using h), hkr⟩
      · rw [List.filter_cons]
        simp only [beq_self_eq_true, if_pos]
        rw [List.filter_eq_nil_iff.mpr (by intro x hx; simp [hnomatch x hx])]
      · apply List.find?_cons_of_pos
        simp
      · intro u hu
        rcases List.mem_cons.mp hu with h | h
        · exact Or.inr h
        · exact Or.inl (List.mem_cons_of_mem _ h)
    · have hstep : upsertRow (r :: rest) row = r :: upsertRow rest row := by
        unfold upsertRow
        have hfind : (r :: rest).find? (fun x => x.url == row.url) =
            rest.find? (fun x => x.url == row.url) := by
          apply List.find?_cons_of_neg
          simp [hr]
        rw [hfind]
        by_cases hs : (rest.find? (fun x => x.url == row.url)).isSome
        · simp [hs, hr]
        · simp [hs, hr]
      obtain ⟨ih1, ih2, ih3, ih4⟩ := ih hkr
      rw [hstep]
      refine ⟨?_, ?_, ?_, ?_⟩
      · simp only [keysUnique, List.map_cons, List.nodup_cons]
        refine ⟨?_, ih1⟩
        intro hmem
        rcases ih4 r.url hmem with h | h
        · exact hnotin h
        · exact hr h
      · rw [List.filter_cons]
        simpa [hr] using ih2
      · rw [show List.find? (fun x => x.url == row.url) (r :: upsertRow rest row) =
            List.find? (fun x => x.url == row.url) (upsertRow rest row) from
            List.find?_cons_of_neg _ (by simp [hr])]
        exact ih3
      · intro u hu
        rcases List.mem_cons.mp hu with h | h
        · exact Or.inl (by simp [h])
        · rcases ih4 u h with h2 | h2
          · exact Or.inl (List.mem_cons_of_mem _ h2)
          · exact Or.inr h2

/-- C6: upsert is last-write-wins with at most one row per URL. Upserting two
verdicts with the same URL into a table satisfying the primary-key invariant
leaves exactly one row for that URL, carrying all field values of the second
call, and the invariant is preserved. -/
theorem upsert_last_write_wins (db : List CacheRow) (v1 v2 : ValidationResult)
    (ca1 ca2 : Option Int) (now1 now2 : Int)
    (hkeys : keysUnique db) (hurl : v1.url = v2.url) :
    (upsert_url_check now2 v2 ca2 (upsert_url_check now1 v1 ca1 db)).filter
      (fun r => r.url == v2.url) = [rowOf now2 v2 ca2] ∧
    keysUnique (upsert_url_check now2 v2 ca2 (upsert_url_check now1 v1 ca1 db)) := by
  have h1 := upsertRow_spec (rowOf now1 v1 ca1) db hkeys
  have h2 := upsertRow_spec (rowOf now2 v2 ca2) (upsertRow db (rowOf now1 v1 ca1)) h1.1
  exact ⟨h2.2.1, h2.1⟩

/-- Witness for C6: two verdicts for the same URL upserted into the empty
table leave exactly one row, with the second verdict's fields. -/
theorem upsert_last_write_wins_witness :
    (upsert_url_check 200
        { url := "https://www.udemy.com/course/w/", status := ValidationStatus.INVALID,
          reason := "HTTP 404 - Page not found", final_url := none,
          http_status := some 404 } none
        (upsert_url_check 100
          { url := "https://www.udemy.com/course/w/", status := ValidationStatus.VALID,
            reason := "URL accessible and appears valid", final_url := none,
            http_status := some 200 } none [])).filter
      (fun r => r.url == "https://www.udemy.com/course/w/") =
      [rowOf 200
        { url := "https://www.udemy.com/course/w/", status := ValidationStatus.INVALID,
          reason := "HTTP 404 - Page not found", final_url := none,
          http_status := some 404 } none] ∧
    keysUnique
      (upsert_url_check 200
        { url := "https://www.udemy.com/course/w/", status := ValidationStatus.INVALID,
          reason := "HTTP 404 - Page not found", final_url := none,
          http_status := some 404 } none
        (upsert_url_check 100
          { url := "https://www.udemy.com/course/w/", status := ValidationStatus.VALID,
            reason := "URL accessible and appears valid", final_url := none,
            http_status := some 200 } none [])) :=
  upsert_last_write_wins []
    { url := "https://www.udemy.com/course/w/", status := ValidationStatus.VALID,
      reason := "URL accessible and appears valid", final_url := none,
      http_status := some 200 }
    { url := "https://www.udemy.com/course/w/", status := ValidationStatus.INVALID,
      reason := "HTTP 404 - Page not found", final_url := none,
      http_status := some 404 }
    none none 100 200 (by simp [keysUnique]) rfl

/-- C10: a freshly classified ValidationResult carries no checkedAt field, so
upsert_url_check receives none for it and stores the current time of the
write: looking the URL up right after the upsert returns the row whose
checked_at equals the clock value now at persistence time. -/
theorem fresh_checked_at_write_time (now : Int) (result : ValidationResult)
    (db : List CacheRow) (hkeys : keysUnique db) :
    get_url_check (upsert_url_check now result none db) result.url =
      some (rowOf now result none) ∧
    (rowOf now result none).checked_at = now := by
  have h := upsertRow_spec (rowOf now result none) db hkeys
  exact ⟨h.2.2.1, rfl⟩

/-- Witness for C10: a fresh verdict upserted into the empty table at clock
value 12345 is stored with checked_at equal to 12345. -/
theorem fresh_checked_at_write_time_witness :
    get_url_check
      (upsert_url_check 12345
        { url := "https://www.udemy.com/course/v/", status := ValidationStatus.VALID,
          reason := "URL accessible and appears valid", final_url := none,
          http_status := some 200 } none [])
      "https://www.udemy.com/course/v/" =
      some (rowOf 12345
        { url := "https://www.udemy.com/course/v/", status := ValidationStatus.VALID,
          reason := "URL accessible and appears valid", final_url := none,
          http_status := some 200 } none) ∧
    (rowOf 12345
      { url := "https://www.udemy.com/course/v/", status := ValidationStatus.VALID,
        reason := "URL accessible and appears valid", final_url := none,
        http_status := some 200 } none).checked_at = 12345 :=
  fresh_checked_at_write_time 12345
    { url := "https://www.udemy.com/course/v/", status := ValidationStatus.VALID,
      reason := "URL accessible and appears valid", final_url := none,
      http_status := some 200 } [] (by simp [keysUnique])

/-- Embeds CACHE_TTL_SECONDS from src/main.py line 12. -/
def CACHE_TTL_SECONDS : Int := 86400

/-- Embeds the five running counters of validate_udemy_urls
(src/main.py lines 40-44). -/
structure Counters where
  fresh : Nat
  cached : Nat
  valid : Nat
  invalid : Nat
  unknown : Nat
deriving DecidableEq, Repr

/-- Embeds the status tally of src/main.py lines 66-71: VALID and INVALID
strings bump their counters, every other status string counts as UNKNOWN. -/
def bucketAdd (c : Counters) (status_str : String) : Counters :=
  if status_str = "VALID" then { c with valid := c.valid + 1 }
  else if status_str = "INVALID" then { c with invalid := c.invalid + 1 }
  else { c with unknown := c.unknown + 1 }

/-- Embeds one iteration of the per-URL loop of validate_udemy_urls
(src/main.py lines 49-71): reuse the cached status when the entry exists and
now minus checked_at is below the TTL, otherwise fetch, classify, upsert. -/
def validateStep (fetch : String → Option Int × Option String × String)
    (now : Int) (acc : List CacheRow × Counters) (url : String) :
    List CacheRow × Counters :=
  let db := acc.1
  let c := acc.2
  let freshGo : List CacheRow × Counters :=
    let result := validate_udemy_url fetch url
    (upsert_url_check now result none db,
     bucketAdd { c with fresh := c.fresh + 1 } result.status.value)
  match get_url_check db url with
  | some cachedRow =>
    if now - cachedRow.checked_at < CACHE_TTL_SECONDS then
      (db, bucketAdd { c with cached := c.cached + 1 } cachedRow.status)
    else
      freshGo
  | none => freshGo

/-- Embeds the Udemy URL collection of src/main.py lines 25-30: every
outbound URL of every post whose lowercased form holds udemy.com, gathered
with set semantics (first occurrence kept, duplicates dropped). -/
def collectUdemyUrls (posts : List (List String)) : List String :=
  (posts.flatMap id).foldl
    (fun acc url =>
      if containsSub (strLower url) "udemy.com" then
        if url ∈ acc then acc else acc ++ [url]
      else acc) []

/-- Embeds the set constructor applied to the fallback list
(src/main.py line 37). -/
def dedupList (l : List String) : List String :=
  l.foldl (fun acc u => if u ∈ acc then acc else acc ++ [u]) []

/-- Embeds the URL selection of src/main.py lines 25-37: the deduplicated
matching URLs, or the environment fallback list (none models an unset or
blank UDEMY_TEST_URLS, some fb the already-split entries) when no post
yields a matching URL. -/
def resolveUrls (posts : List (List String)) (fallbackEnv : Option (List String)) :
    List String :=
  let u := collectUdemyUrls posts
  if u.isEmpty then
    match fallbackEnv with
    | some fb => dedupList fb
    | none => []
  else u

/-- Embeds the returned six-tuple of validate_udemy_urls
(src/main.py line 74). -/
structure Report where
  total : Nat
  fresh : Nat
  cached : Nat
  valid : Nat
  invalid : Nat
  unknown : Nat
deriving DecidableEq, Repr

/-- Embeds validate_udemy_urls from src/main.py lines 15-74, threading the
url_checks table state explicitly and taking the network as an oracle. -/
def validate_udemy_urls (fetch : String → Option Int × Option String × String)
    (now : Int) (posts : List (List String)) (fallbackEnv : Option (List String))
    (db0 : List CacheRow) : Report × List CacheRow :=
  let urls := resolveUrls posts fallbackEnv
  let final := urls.foldl (validateStep fetch now) (db0, ⟨0, 0, 0, 0, 0⟩)
  (⟨urls.length, final.2.fresh, final.2.cached, final.2.valid, final.2.invalid,
    final.2.unknown⟩, final.1)

/-- C3: for a URL with a cache entry the orchestrator step reuses the cached
status exactly when now minus checked_at is below 86400 seconds: in that case
the table is untouched, cachedCount is bumped, and the outcome does not
depend on the network oracle; at or past the TTL, and likewise when no entry
exists, a fresh fetch, classify and upsert happens and freshCount is bumped. -/
theorem cache_ttl_boundary
    (fetch fetch2 : String → Option Int × Option String × String)
    (now : Int) (db : List CacheRow) (c : Counters) (url : String) :
    (∀ row, get_url_check db url = some row →
      (now - row.checked_at < CACHE_TTL_SECONDS →
        validateStep fetch now (db, c) url =
          (db, bucketAdd { c with cached := c.cached + 1 } row.status) ∧
        validateStep fetch now (db, c) url = validateStep fetch2 now (db, c) url) ∧
      (CACHE_TTL_SECONDS ≤ now - row.checked_at →
        validateStep fetch now (db, c) url =
          (upsert_url_check now (validate_udemy_url fetch url) none db,
           bucketAdd { c with fresh := c.fresh + 1 }
             (validate_udemy_url fetch url).status.value))) ∧
    (get_url_check db url = none →
      validateStep fetch now (db, c) url =
        (upsert_url_check now (validate_udemy_url fetch url) none db,
         bucketAdd { c with fresh := c.fresh + 1 }
           (validate_udemy_url fetch url).status.value)) := by
  constructor
  · intro row hrow
    constructor
    · intro hlt
      constructor
      · simp [validateStep, hrow, hlt]
      · simp [validateStep, hrow, hlt]
    · intro hge
      have hnlt : ¬ (now - row.checked_at < CACHE_TTL_SECONDS) := not_lt.mpr hge
      simp [validateStep, hrow, hnlt]
  · intro hnone
    simp [validateStep, hnone]

/-- Witness for C3: with now at 200000, an entry checked at now - 86399 is
reused (cachedCount reaches 1) while an entry checked at now - 86401 takes
the fresh path (freshCount reaches 1). -/
theorem cache_ttl_boundary_witness :
    (validateStep (fun _ => (some 200, none, "")) 200000
      ([⟨"u", "VALID", "ok", none, none, 113601⟩], ⟨0, 0, 0, 0, 0⟩) "u").2.cached = 1 ∧
    (validateStep (fun _ => (some 200, none, "")) 200000
      ([⟨"u", "VALID", "ok", none, none, 113599⟩], ⟨0, 0, 0, 0, 0⟩) "u").2.fresh = 1 := by
  have h1 := ((cache_ttl_boundary (fun _ => (some 200, none, ""))
      (fun _ => (some 200, none, "")) 200000
      [⟨"u", "VALID", "ok", none, none, 113601⟩] ⟨0, 0, 0, 0, 0⟩ "u").1
      ⟨"u", "VALID", "ok", none, none, 113601⟩ (by decide)).1 (by decide)
  have h2 := ((cache_ttl_boundary (fun _ => (some 200, none, ""))
      (fun _ => (some 200, none, "")) 200000
      [⟨"u", "VALID", "ok", none, none, 113599⟩] ⟨0, 0, 0, 0, 0⟩ "u").1
      ⟨"u", "VALID", "ok", none, none, 113599⟩ (by decide)).2 (by decide)
  rw [h1.1, h2]
  exact ⟨rfl, rfl⟩

/-- States that bucketAdd leaves fresh and cached untouched and raises the
valid, invalid, unknown tally by exactly one. -/
theorem bucketAdd_counts (c : Counters) (s : String) :
    (bucketAdd c s).fresh = c.fresh ∧ (bucketAdd c s).cached = c.cached ∧
    (bucketAdd c s).valid + (bucketAdd c s).invalid + (bucketAdd c s).unknown =
      c.valid + c.invalid + c.unknown + 1 := by
  unfold bucketAdd
  by_cases h1 : s = "VALID"
  · simp [h1]
    omega
  · by_cases h2 : s = "INVALID"
    · simp [h1, h2]
      omega
    · simp [h1, h2]
      omega

/-- States that every loop iteration raises fresh plus cached by one and the
status tally by one. -/
theorem validateStep_counts (fetch : String → Option Int × Option String × String)
    (now : Int) (acc : List CacheRow × Counters) (url : String) :
    (validateStep fetch now acc url).2.fresh +
      (validateStep fetch now acc url).2.cached =
      acc.2.fresh + acc.2.cached + 1 ∧
    (validateStep fetch now acc url).2.valid +
      (validateStep fetch now acc url).2.invalid +
      (validateStep fetch now acc url).2.unknown =
      acc.2.valid + acc.2.invalid + acc.2.unknown + 1 := by
  obtain ⟨db, c⟩ := acc
  unfold validateStep
  cases hget : get_url_check db url with
  | some row =>
    by_cases hlt : now - row.checked_at < CACHE_TTL_SECONDS
    · obtain ⟨hf, hc, hs⟩ := bucketAdd_counts { c with cached := c.cached + 1 } row.status
      simp only [hget, hlt, if_true]
      simp only at hf hc hs
      constructor <;> omega
    · obtain ⟨hf, hc, hs⟩ := bucketAdd_counts { c with fresh := c.fresh + 1 }
        (validate_udemy_url fetch url).status.value
      simp only [hget, hlt, if_false]
      simp only at hf hc hs
      constructor <;> omega
  | none =>
    obtain ⟨hf, hc, hs⟩ := bucketAdd_counts { c with fresh := c.fresh + 1 }
      (validate_udemy_url fetch url).status.value
    simp only [hget]
    simp only at hf hc hs
    constructor <;> omega

/-- States the loop invariant: folding the per-URL step over a URL list
raises fresh plus cached and the status tally by the list length. -/
theorem foldl_validateStep_counts
    (fetch : String → Option Int × Option String × String) (now : Int)
    (urls : List String) :
    ∀ acc : List CacheRow × Counters,
      (urls.foldl (validateStep fetch now) acc).2.fresh +
        (urls.foldl (validateStep fetch now) acc).2.cached =
        acc.2.fresh + acc.2.cached + urls.length ∧
      (urls.foldl (validateStep fetch now) acc).2.valid +
        (urls.foldl (validateStep fetch now) acc).2.invalid +
        (urls.foldl (validateStep fetch now) acc).2.unknown =
        acc.2.valid + acc.2.invalid + acc.2.unknown + urls.length := by
  induction urls with
  | nil =>
    intro acc
    simp
  | cons u rest ih =>
    intro acc
    simp only [List.foldl_cons, List.length_cons]
    obtain ⟨h1, h2⟩ := ih (validateStep fetch now acc u)
    obtain ⟨s1, s2⟩ := validateStep_counts fetch now acc u
    constructor <;> omega

/-- C9: the counters returned by the orchestrator satisfy
freshCount plus cachedCount equals total and the three status counts sum to
total, each processed URL raising exactly one counter of each pair; any
status string other than VALID and INVALID, corrupt values included, counts
as UNKNOWN. -/
theorem counters_partition
    (fetch : String → Option Int × Option String × String) (now : Int)
    (posts : List (List String)) (fallbackEnv : Option (List String))
    (db0 : List CacheRow) :
    ((validate_udemy_urls fetch now posts fallbackEnv db0).1.fresh +
      (validate_udemy_urls fetch now posts fallbackEnv db0).1.cached =
      (validate_udemy_urls fetch now posts fallbackEnv db0).1.total) ∧
    ((validate_udemy_urls fetch now posts fallbackEnv db0).1.valid +
      (validate_udemy_urls fetch now posts fallbackEnv db0).1.invalid +
      (validate_udemy_urls fetch now posts fallbackEnv db0).1.unknown =
      (validate_udemy_urls fetch now posts fallbackEnv db0).1.total) ∧
    (∀ c s, s ≠ "VALID" → s ≠ "INVALID" →
      bucketAdd c s = { c with unknown := c.unknown + 1 }) := by
  obtain ⟨h1, h2⟩ := foldl_validateStep_counts fetch now
    (resolveUrls posts fallbackEnv) (db0, ⟨0, 0, 0, 0, 0⟩)
  refine ⟨?_, ?_, ?_⟩
  · simpa [validate_udemy_urls] using h1
  · simpa [validate_udemy_urls] using h2
  · intro c s hv hi
    simp [bucketAdd, hv, hi]

/-- Witness for C9: a concrete one-post run has matching counter sums, and a
corrupt cached status string CORRUPT is tallied as UNKNOWN. -/
theorem counters_partition_witness :
    ((validate_udemy_urls (fun _ => (some 200, none, "")) 0
        [["https://www.udemy.com/course/a/", "x"]] none []).1.fresh +
      (validate_udemy_urls (fun _ => (some 200, none, "")) 0
        [["https://www.udemy.com/course/a/", "x"]] none []).1.cached =
      (validate_udemy_urls (fun _ => (some 200, none, "")) 0
        [["https://www.udemy.com/course/a/", "x"]] none []).1.total) ∧
    bucketAdd ⟨0, 0, 0, 0, 0⟩ "CORRUPT" = ⟨0, 0, 0, 0, 1⟩ := by
  have h := counters_partition (fun _ => (some 200, none, "")) 0
    [["https://www.udemy.com/course/a/", "x"]] none []
  refine ⟨h.1, ?_⟩
  rw [h.2.2 ⟨0, 0, 0, 0, 0⟩ "CORRUPT" (by decide) (by decide)]

/-- States that the guarded set-insertion fold keeps the accumulated URL list
free of duplicates. -/
theorem collectFold_nodup (p : String → Bool) (l : List String) :
    ∀ acc : List String, acc.Nodup →
      (l.foldl (fun acc u =>
        if p u then (if u ∈ acc then acc else acc ++ [u]) else acc) acc).Nodup := by
  induction l with
  | nil =>
    intro acc h
    simpa
  | cons u rest ih =>
    intro acc h
    simp only [List.foldl_cons]
    apply ih
    by_cases hp : p u = true
    · by_cases hm : u ∈ acc
      · simpa [hp, hm]
      · rw [if_pos hp, if_neg hm]
        simp [List.nodup_append, h, hm]
    · simpa [hp]

/-- Characterizes membership in the guarded set-insertion fold: exactly the
accumulated URLs plus the traversed URLs passing the guard. -/
theorem collectFold_mem (p : String → Bool) (l : List String) :
    ∀ acc u0,
      (u0 ∈ l.foldl (fun acc u =>
          if p u then (if u ∈ acc then acc else acc ++ [u]) else acc) acc
        ↔ u0 ∈ acc ∨ (u0 ∈ l ∧ p u0 = true)) := by
  induction l with
  | nil =>
    intro acc u0
    simp
  | cons u rest ih =>
    intro acc u0
    simp only [List.foldl_cons]
    rw [ih]
    by_cases hp : p u = true
    · by_cases hm : u ∈ acc
      · rw [if_pos hp, if_pos hm]
        constructor
        · rintro (h | ⟨h1, h2⟩)
          · exact Or.inl h
          · exact Or.inr ⟨List.mem_cons_of_mem _ h1, h2⟩
        · rintro (h | ⟨h1, h2⟩)
          · exact Or.inl h
          · rcases List.mem_cons.mp h1 with rfl | h1
            · exact Or.inl hm
            · exact Or.inr ⟨h1, h2⟩
      · rw [if_pos hp, if_neg hm]
        constructor
        · rintro (h | ⟨h1, h2⟩)
          · rcases List.mem_append.mp h with h | h
            · exact Or.inl h
            · rcases List.mem_singleton.mp h with rfl
              exact Or.inr ⟨List.mem_cons_self _ _, hp⟩
          · exact Or.inr ⟨List.mem_cons_of_mem _ h1, h2⟩
        · rintro (h | ⟨h1, h2⟩)
          · exact Or.inl (List.mem_append_left _ h)
          · rcases List.mem_cons.mp h1 with rfl | h1
            · exact Or.inl (List.mem_append_right _ (List.mem_singleton.mpr rfl))
            · exact Or.inr ⟨h1, h2⟩
    · rw [if_neg hp]
      constructor
      · rintro (h | ⟨h1, h2⟩)
        · exact Or.inl h
        · exact Or.inr ⟨List.mem_cons_of_mem _ h1, h2⟩
      · rintro (h | ⟨h1, h2⟩)
        · exact Or.inl h
        · rcases List.mem_cons.mp h1 with rfl | h1
          · exact absurd h2 hp
          · exact Or.inr ⟨h1, h2⟩

/-- States that the unguarded set-insertion fold keeps the list free of
duplicates. -/
theorem dedupFold_nodup (l : List String) :
    ∀ acc : List String, acc.Nodup →
      (l.foldl (fun acc u => if u ∈ acc then acc else acc ++ [u]) acc).Nodup := by
  induction l with
  | nil =>
    intro acc h
    simpa
  | cons u rest ih =>
    intro acc h
    simp only [List.foldl_cons]
    apply ih
    by_cases hm : u ∈ acc
    · simpa [hm]
    · rw [if_neg hm]
      simp [List.nodup_append, h, hm]

/-- C7 counterexample: on posts whose outbound URLs are a, a, b, none of
which holds udemy.com, the orchestrator processes 0 URLs, not 2: the matching
filter runs before deduplication, so the claimed example fails as stated. -/
theorem udemy_filter_cex :
    (validate_udemy_urls (fun _ => (some 200, none, "")) 0 [["a", "a", "b"]]
      none []).1.total = 0 ∧
    (validate_udemy_urls (fun _ => (some 200, none, "")) 0 [["a", "a", "b"]]
      none []).1.total ≠ 2 := by
  constructor
  · rfl
  · decide

/-- C7 amended: the orchestrator validates exactly the set of distinct
candidate URLs whose lowercased form holds udemy.com: the processed list is
duplicate-free, membership is exactly the matching posted URLs, the fallback
list is consulted only when no post yields a matching URL, and a post list
whose matching URLs are a duplicated course a plus course b yields 2
processed URLs (while non-matching inputs such as a, a, b yield 0). -/
theorem udemy_url_selection (posts : List (List String))
    (fallbackEnv : Option (List String)) :
    (resolveUrls posts fallbackEnv).Nodup ∧
    (∀ u, u ∈ collectUdemyUrls posts ↔
      (u ∈ posts.flatMap id ∧ containsSub (strLower u) "udemy.com" = true)) ∧
    (collectUdemyUrls posts ≠ [] →
      resolveUrls posts fallbackEnv = collectUdemyUrls posts) ∧
    ((validate_udemy_urls (fun _ => (some 200, none, "")) 0
        [["https://www.udemy.com/course/a/", "https://www.udemy.com/course/a/",
          "https://www.udemy.com/course/b/"]] none []).1.total = 2) := by
  refine ⟨?_, ?_, ?_, ?_⟩
  · unfold resolveUrls
    by_cases he : (collectUdemyUrls posts).isEmpty = true
    · rw [if_pos he]
      cases fallbackEnv with
      | none => simp
      | some fb => exact dedupFold_nodup fb [] List.nodup_nil
    · rw [if_neg he]
      exact collectFold_nodup _ _ [] List.nodup_nil
  · intro u
    have h := collectFold_mem (fun url => containsSub (strLower url) "udemy.com")
      (posts.flatMap id) [] u
    simpa [collectUdemyUrls] using h
  · intro hne
    unfold resolveUrls
    rw [if_neg (by simpa [List.isEmpty_iff] using hne)]
  · rfl

/-- Witness for C7 amended: a matching URL is collected from a mixed post and
the fallback list is ignored when a match exists. -/
theorem udemy_url_selection_witness :
    ("https://www.udemy.com/course/c/" ∈
      collectUdemyUrls [["a", "https://www.udemy.com/course/c/"]]) ∧
    resolveUrls [["a", "https://www.udemy.com/course/c/"]] (some ["f"]) =
      collectUdemyUrls [["a", "https://www.udemy.com/course/c/"]] := by
  have h := udemy_url_selection [["a", "https://www.udemy.com/course/c/"]]
    (some ["f"])
  refine ⟨?_, h.2.2.1 (by decide)⟩
  exact (h.2.1 "https://www.udemy.com/course/c/").mpr ⟨by decide, by decide⟩

/-- Embeds the Python str.isspace characters relevant to str.split. -/
def pyIsSpace (c : Char) : Bool :=
  c == ' ' || c == '\t' || c == '\n' || c == '\r' || c == '\x0b' || c == '\x0c'

/-- Computes Python str.split with no separator: maximal runs of
non-whitespace characters, leading and trailing whitespace dropped.
The accumulator holds the current word reversed. -/
def wordsAux : List Char → List Char → List (List Char)
  | [], acc => if acc.isEmpty then [] else [acc.reverse]
  | c :: cs, acc =>
    if pyIsSpace c then
      if acc.isEmpty then wordsAux cs [] else acc.reverse :: wordsAux cs []
    else wordsAux cs (c :: acc)

/-- Embeds text.split() from src/validators/base.py line 62. -/
def pyWords (l : List Char) : List (List Char) :=
  wordsAux l []

/-- Embeds the space-join of Python str.join: parts glued with single
spaces, used both by HTMLTextExtractor.get_text (line 43) and by the
whitespace cleanup (line 62). -/
def joinSp : List (List Char) → List Char
  | [] => []
  | [w] => w
  | w :: ws => w ++ ' ' :: joinSp ws

/-- Embeds the whitespace normalization of extract_plain_text: join the
parser text parts with spaces, then split and rejoin. -/
def normalizeText (parts : List (List Char)) : List Char :=
  joinSp (pyWords (joinSp parts))

/-- Embeds extract_plain_text from src/validators/base.py lines 46-71.
parsed is the HTML-parser oracle outcome: none models a parser exception
(caught, returning the empty string), some parts the handle_data chunks. -/
def extract_plain_text (parsed : Option (List (List Char))) (max_length : Nat) :
    List Char :=
  match parsed with
  | none => []
  | some parts =>
    let text := normalizeText parts
    if max_length < text.length then text.take max_length else text

/-- Decides that no two adjacent characters are both whitespace. -/
def noWsRun : List Char → Bool
  | [] => true
  | a :: rest =>
    (match rest.head? with
     | none => true
     | some b => !(pyIsSpace a && pyIsSpace b)) && noWsRun rest

/-- Decides that the first character, when present, is not whitespace. -/
def noLeadWs : List Char → Bool
  | [] => true
  | c :: _ => !pyIsSpace c

/-- Decides that the last character, when present, is not whitespace. -/
def noTrailWs (l : List Char) : Bool :=
  match l.getLast? with
  | none => true
  | some c => !pyIsSpace c

/-- Decides that every whitespace character in the list is a plain space. -/
def onlySpaceSep (l : List Char) : Bool :=
  l.all (fun c => !pyIsSpace c || c == ' ')

/-- Decides that a word is nonempty and free of whitespace. -/
def cleanWord (w : List Char) : Bool :=
  !w.isEmpty && w.all (fun c => !pyIsSpace c)

/-- States that every word produced by the split is nonempty and free of
whitespace, given a whitespace-free accumulator. -/
theorem wordsAux_clean (l : List Char) :
    ∀ acc : List Char, acc.all (fun c => !pyIsSpace c) = true →
      (wordsAux l acc).all cleanWord = true := by
  induction l with
  | nil =>
    intro acc hacc
    unfold wordsAux
    by_cases he : acc.isEmpty = true
    · simp [he]
    · simp only [he, if_false, List.all_cons, List.all_nil, Bool.and_true]
      simp [cleanWord, List.all_reverse, hacc, List.isEmpty_iff,
        List.reverse_eq_nil_iff]
      simpa [List.isEmpty_iff] using he
  | cons c cs ih =>
    intro acc hacc
    unfold wordsAux
    by_cases hs : pyIsSpace c = true
    · by_cases he : acc.isEmpty = true
      · simp only [hs, if_true, he]
        exact ih [] rfl
      · rw [if_pos hs, if_neg he, List.all_cons, Bool.and_eq_true]
        refine ⟨?_, ih [] rfl⟩
        simp [cleanWord, List.all_reverse, hacc, List.isEmpty_iff,
          List.reverse_eq_nil_iff]
        simpa [List.isEmpty_iff] using he
    · simp only [hs, if_false]
      exact ih (c :: acc) (by simp [hacc, hs])

/-- Extracts the whitespace-freeness of a clean word. -/
theorem cleanWord_all (w : List Char) (h : cleanWord w = true) :
    w.all (fun c => !pyIsSpace c) = true := by
  simp [cleanWord] at h
  rw [List.all_eq_true]
  intro x hx
  simpa using h.2 x hx

/-- Extracts the nonemptiness of a clean word. -/
theorem cleanWord_ne_nil (w : List Char) (h : cleanWord w = true) : w ≠ [] := by
  simp [cleanWord] at h
  simpa [List.isEmpty_iff] using h.1

/-- States that a list beginning with a clean word has no leading space. -/
theorem noLeadWs_append (w l : List Char) (h : cleanWord w = true) :
    noLeadWs (w ++ l) = true := by
  cases w with
  | nil => exact absurd rfl (cleanWord_ne_nil [] h)
  | cons c t =>
    have hall := cleanWord_all (c :: t) h
    rw [List.all_cons, Bool.and_eq_true] at hall
    simpa [noLeadWs] using hall.1

/-- States that the space-join of clean words has no leading space. -/
theorem joinSp_noLeadWs (ws : List (List Char)) (h : ws.all cleanWord = true) :
    noLeadWs (joinSp ws) = true := by
  cases ws with
  | nil => rfl
  | cons w ws2 =>
    rw [List.all_cons, Bool.and_eq_true] at h
    cases ws2 with
    | nil =>
      have := noLeadWs_append w [] h.1
      simpa using this
    | cons x xs =>
      exact noLeadWs_append w (' ' :: joinSp (x :: xs)) h.1

/-- States that prefixing a whitespace-free run preserves noWsRun. -/
theorem noWsRun_append (w : List Char) (l : List Char)
    (hw : w.all (fun c => !pyIsSpace c) = true) (hl : noWsRun l = true) :
    noWsRun (w ++ l) = true := by
  induction w with
  | nil => simpa
  | cons a t ih =>
    rw [List.all_cons, Bool.and_eq_true] at hw
    have ha : pyIsSpace a = false := by simpa using hw.1
    have htail := ih hw.2
    cases hh : (t ++ l).head? with
    | none => simp [noWsRun, hh, htail]
    | some b => simp [noWsRun, hh, ha, htail]

/-- States that a space may be prepended to a list with no leading space
without creating a whitespace run. -/
theorem noWsRun_space_cons (l : List Char) (hle : noLeadWs l = true)
    (hl : noWsRun l = true) : noWsRun (' ' :: l) = true := by
  cases l with
  | nil => rfl
  | cons b t =>
    have hb : pyIsSpace b = false := by simpa [noLeadWs] using hle
    rw [noWsRun, Bool.and_eq_true]
    refine ⟨?_, hl⟩
    simp [hb]

/-- States that the space-join of clean words holds no whitespace run. -/
theorem joinSp_noWsRun (ws : List (List Char)) (h : ws.all cleanWord = true) :
    noWsRun (joinSp ws) = true := by
  induction ws with
  | nil => rfl
  | cons w ws2 ih =>
    rw [List.all_cons, Bool.and_eq_true] at h
    cases ws2 with
    | nil =>
      have := noWsRun_append w [] (cleanWord_all w h.1) rfl
      simpa using this
    | cons x xs =>
      have hj : noWsRun (joinSp (x :: xs)) = true := ih h.2
      have hlead : noLeadWs (joinSp (x :: xs)) = true := joinSp_noLeadWs _ h.2
      have hsp := noWsRun_space_cons _ hlead hj
      exact noWsRun_append w (' ' :: joinSp (x :: xs)) (cleanWord_all w h.1) hsp

/-- Computes the last element of an append whose right part is nonempty. -/
theorem getLast?_append_right (l1 l2 : List Char) (h : l2 ≠ []) :
    (l1 ++ l2).getLast? = l2.getLast? := by
  induction l1 with
  | nil => rfl
  | cons a t ih =>
    have hne : t ++ l2 ≠ [] := by
      simp [h]
    obtain ⟨b, bs, hb⟩ := List.exists_cons_of_ne_nil hne
    rw [List.cons_append, hb, List.getLast?_cons_cons, ← hb, ih]

/-- States that the space-join of a nonempty list of clean words is
nonempty. -/
theorem joinSp_ne_nil (w : List Char) (ws : List (List Char))
    (h : (w :: ws).all cleanWord = true) : joinSp (w :: ws) ≠ [] := by
  rw [List.all_cons, Bool.and_eq_true] at h
  cases ws with
  | nil => exact cleanWord_ne_nil w h.1
  | cons x xs =>
    show w ++ ' ' :: joinSp (x :: xs) ≠ []
    simp

/-- States that a whitespace-free list has no trailing space. -/
theorem noTrailWs_of_all (w : List Char)
    (h : w.all (fun c => !pyIsSpace c) = true) : noTrailWs w = true := by
  unfold noTrailWs
  cases hl : w.getLast? with
  | none => rfl
  | some c =>
    have hmem : c ∈ w := List.mem_of_mem_getLast? (by rw [hl]; rfl)
    rw [List.all_eq_true] at h
    simpa using h c hmem

/-- States that the space-join of clean words has no trailing space. -/
theorem joinSp_noTrailWs (ws : List (List Char)) (h : ws.all cleanWord = true) :
    noTrailWs (joinSp ws) = true := by
  induction ws with
  | nil => rfl
  | cons w ws2 ih =>
    rw [List.all_cons, Bool.and_eq_true] at h
    cases ws2 with
    | nil =>
      show noTrailWs (joinSp [w]) = true
      have hw : joinSp [w] = w := rfl
      rw [hw]
      exact noTrailWs_of_all w (cleanWord_all w h.1)
    | cons x xs =>
      have hj := ih h.2
      have hne : joinSp (x :: xs) ≠ [] := joinSp_ne_nil x xs h.2
      show noTrailWs (w ++ ' ' :: joinSp (x :: xs)) = true
      unfold noTrailWs
      rw [getLast?_append_right w (' ' :: joinSp (x :: xs)) (by simp)]
      obtain ⟨b, bs, hb⟩ := List.exists_cons_of_ne_nil hne
      rw [hb, List.getLast?_cons_cons]
      unfold noTrailWs at hj
      rw [hb] at hj
      exact hj

/-- States that the space-join of clean words holds no whitespace character
besides the separating single spaces. -/
theorem joinSp_onlySpaceSep (ws : List (List Char))
    (h : ws.all cleanWord = true) : onlySpaceSep (joinSp ws) = true := by
  induction ws with
  | nil => rfl
  | cons w ws2 ih =>
    rw [List.all_cons, Bool.and_eq_true] at h
    have hw : onlySpaceSep w = true := by
      have hall := cleanWord_all w h.1
      unfold onlySpaceSep
      rw [List.all_eq_true] at hall ⊢
      intro x hx
      simp [hall x hx]
    cases ws2 with
    | nil =>
      show onlySpaceSep (joinSp [w]) = true
      exact hw
    | cons x xs =>
      show onlySpaceSep (w ++ ' ' :: joinSp (x :: xs)) = true
      unfold onlySpaceSep
      rw [List.all_append, Bool.and_eq_true]
      refine ⟨hw, ?_⟩
      rw [List.all_cons, Bool.and_eq_true]
      exact ⟨by decide, ih h.2⟩

/-- States that a prefix of a list with no whitespace run has none either. -/
theorem noWsRun_take : ∀ (l : List Char) (n : Nat), noWsRun l = true →
    noWsRun (l.take n) = true
  | [], n, _ => by simp [noWsRun]
  | _ :: t, 0, _ => rfl
  | a :: t, n + 1, h => by
    cases t with
    | nil => simp [noWsRun]
    | cons b t2 =>
      rw [noWsRun, Bool.and_eq_true] at h
      cases n with
      | zero => rfl
      | succ m =>
        have hrec := noWsRun_take (b :: t2) (m + 1) h.2
        show noWsRun (a :: b :: List.take m t2) = true
        rw [noWsRun, Bool.and_eq_true]
        exact ⟨h.1, hrec⟩

/-- States that a prefix of a list with no leading space has none either. -/
theorem noLeadWs_take (l : List Char) (n : Nat) (h : noLeadWs l = true) :
    noLeadWs (l.take n) = true := by
  cases l with
  | nil => simp [noLeadWs]
  | cons c t =>
    cases n with
    | zero => rfl
    | succ m => simpa [noLeadWs] using h

/-- States that all-ness transfers to prefixes. -/
theorem all_take (p : Char → Bool) (l : List Char) (n : Nat)
    (h : l.all p = true) : (l.take n).all p = true := by
  rw [List.all_eq_true] at h ⊢
  intro x hx
  exact h x (List.take_subset _ _ hx)

/-- C8 counterexample: extracting the plain text ab cd with maxLength 3
returns the three characters a, b, space — the truncation runs after the
trim, so the returned string ends in whitespace and is not trimmed. -/
theorem extract_trim_cex :
    extract_plain_text (some [String.toList "ab cd"]) 3 = String.toList "ab " ∧
    noTrailWs (extract_plain_text (some [String.toList "ab cd"]) 3) = false := by
  constructor
  · rfl
  · rfl

/-- C8 amended: the extractor returns at most maxLength characters with every
whitespace run collapsed to a single plain space and no leading whitespace;
the text is trimmed before truncation, so whenever the normalized text fits
within maxLength the result has no trailing whitespace either (truncation may
otherwise leave a single trailing space); a parse failure yields the empty
string. -/
theorem extract_plain_text_props (parsed : Option (List (List Char)))
    (max_length : Nat) :
    (extract_plain_text parsed max_length).length ≤ max_length ∧
    noWsRun (extract_plain_text parsed max_length) = true ∧
    noLeadWs (extract_plain_text parsed max_length) = true ∧
    onlySpaceSep (extract_plain_text parsed max_length) = true ∧
    extract_plain_text none max_length = [] ∧
    (∀ parts, parsed = some parts →
      (normalizeText parts).length ≤ max_length →
      noTrailWs (extract_plain_text parsed max_length) = true) := by
  cases parsed with
  | none =>
    refine ⟨by simp [extract_plain_text], rfl, rfl, rfl, rfl, ?_⟩
    intro parts hp
    exact absurd hp (by simp)
  | some parts =>
    have hclean : (pyWords (joinSp parts)).all cleanWord = true :=
      wordsAux_clean (joinSp parts) [] rfl
    have hrun := joinSp_noWsRun _ hclean
    have hlead := joinSp_noLeadWs _ hclean
    have htrail := joinSp_noTrailWs _ hclean
    have hsep := joinSp_onlySpaceSep _ hclean
    by_cases hlen : max_length < (normalizeText parts).length
    · have hex : extract_plain_text (some parts) max_length =
          (normalizeText parts).take max_length := by
        simp [extract_plain_text, hlen]
      refine ⟨?_, ?_, ?_, ?_, rfl, ?_⟩
      · rw [hex, List.length_take]
        exact min_le_left _ _
      · rw [hex]
        exact noWsRun_take _ _ hrun
      · rw [hex]
        exact noLeadWs_take _ _ hlead
      · rw [hex]
        exact all_take _ _ _ hsep
      · intro parts2 hp hle
        injection hp with hp2
        rw [hp2] at hlen
        exact absurd hle (by omega)
    · have hex : extract_plain_text (some parts) max_length =
          normalizeText parts := by
        simp [extract_plain_text, hlen]
      refine ⟨?_, ?_, ?_, ?_, rfl, ?_⟩
      · rw [hex]
        omega
      · rw [hex]
        exact hrun
      · rw [hex]
        exact hlead
      · rw [hex]
        exact hsep
      · intro parts2 hp hle
        rw [hex]
        exact htrail

/-- Witness for C8 amended: a messy snippet normalizes with no whitespace
runs and, fitting within the default 2000-character bound, no trailing
space. -/
theorem extract_plain_text_props_witness :
    noWsRun (extract_plain_text
      (some [String.toList "  Learn   Python  today "]) 2000) = true ∧
    noTrailWs (extract_plain_text
      (some [String.toList "  Learn   Python  today "]) 2000) = true := by
  have h := extract_plain_text_props
    (some [String.toList "  Learn   Python  today "]) 2000
  exact ⟨h.2.1, h.2.2.2.2.2 _ rfl (by decide)⟩
